import Mathlib

/-!
Verification of the stale-PR digest builder (`.github/scripts/combine-pr.py`).

The script reads every JSON file in `outputs/*.json` (each a JSON array of
records with fields `title`, `url`, `daysStale`), concatenates the records,
stable-sorts them by `daysStale` ascending and reverses the result, reports
the total count, truncates to a command-line limit (default 999), formats
each kept record as a numbered markdown line, and appends the result to the
step-summary sink and the structured-outputs sink.

Here the pipeline is embedded shallowly: the parsed input files are a
`List (List StaleRecord)`, the two sinks are modelled as strings to which
the run's output is appended, and the per-call unique delimiter of
`set_multiline_output` is a parameter.
-/

/-- A stale-PR record, the element shape of each input JSON array:
`title` (string), `url` (string), `daysStale` (integer). -/
structure StaleRecord where
  title : String
  url : String
  daysStale : Int
deriving DecidableEq, Repr

/-- The merged list (`result` in the script): the concatenation of the
records of all input files, in file order. -/
def result (files : List (List StaleRecord)) : List StaleRecord :=
  files.flatten

/-- The sort key comparison, `key=lambda x: x['daysStale']`. -/
abbrev recLe : StaleRecord → StaleRecord → Prop :=
  fun a b => a.daysStale ≤ b.daysStale

/-- `sorted_data = sorted(result, key=lambda x: x['daysStale'])` followed by
`sorted_data.reverse()`: a stable ascending sort by `daysStale`, then a full
reversal.  Python's `sorted` is stable; `List.insertionSort` is the stable
sort used for the embedding. -/
def sorted_data (files : List (List StaleRecord)) : List StaleRecord :=
  (List.insertionSort recLe (result files)).reverse

/-- `count = len(sorted_data)`. -/
def count (files : List (List StaleRecord)) : Nat :=
  (sorted_data files).length

/-- Python whitespace stripped by `int(...)` around the digits. -/
def isPySpace (c : Char) : Bool :=
  c = ' ' || c = '\t' || c = '\n' || c = '\r' || c = '\x0b' || c = '\x0c'

/-- Strip leading and trailing whitespace, as `int(str)` does. -/
def stripPy (cs : List Char) : List Char :=
  ((cs.dropWhile isPySpace).reverse.dropWhile isPySpace).reverse

/-- Continuation of a Python integer-literal digit run: digits, with single
underscores allowed only between digits. -/
def pyDigitsTail : List Char → Bool
  | [] => true
  | '_' :: c :: rest => c.isDigit && pyDigitsTail rest
  | c :: rest => c.isDigit && pyDigitsTail rest

/-- A nonempty digit run acceptable to `int(...)` (after sign): starts with a
digit, then digits with single underscores between digits. -/
def pyDigitsOk : List Char → Bool
  | [] => false
  | c :: rest => c.isDigit && pyDigitsTail rest

/-- Numeric value of a digit run, ignoring underscores. -/
def digitsVal (cs : List Char) : Nat :=
  cs.foldl (fun acc c => if c = '_' then acc else acc * 10 + (c.toNat - '0'.toNat)) 0

/-- `int(s)` for a decimal string: optional surrounding whitespace, optional
sign, then digits.  `none` models the uncaught `ValueError` (the script has
no handler, so the process dies with a non-zero status). -/
def int_py (s : String) : Option Int :=
  match stripPy s.data with
  | '+' :: rest => if pyDigitsOk rest then some ((digitsVal rest : Nat) : Int) else none
  | '-' :: rest => if pyDigitsOk rest then some (-((digitsVal rest : Nat) : Int)) else none
  | cs => if pyDigitsOk cs then some ((digitsVal cs : Nat) : Int) else none

/-- The limit taken from the command line (`args` is `sys.argv[1:]`):
`int(sys.argv[1])` when an argument is present, `999` otherwise.  `none`
models the uncaught `ValueError` on an unparseable argument. -/
def limit (args : List String) : Option Int :=
  match args with
  | [] => some 999
  | a :: _ => int_py a

/-- Python slice `l[:n]`: the first `n` elements for `n ≥ 0`, and all but the
last `-n` elements for `n < 0`. -/
def pySliceTo {α : Type} (l : List α) (n : Int) : List α :=
  if 0 ≤ n then l.take n.toNat else l.take (l.length - (-n).toNat)

/-- `sliced_list = sorted_data[:limit]`. -/
def sliced_list (files : List (List StaleRecord)) (lim : Int) : List StaleRecord :=
  pySliceTo (sorted_data files) lim

/-- The f-string template applied to the record at 0-based position `i` of
the sliced list: `f' {i + 1}. [{title}]({url}) | {daysStale} days with no reviews'`. -/
def formatLine (i : Nat) (r : StaleRecord) : String :=
  " " ++ toString (i + 1) ++ ". [" ++ r.title ++ "](" ++ r.url ++ ") | " ++
    toString r.daysStale ++ " days with no reviews"

/-- `formated_list`: the template applied over `enumerate(sliced_list)`. -/
def formated_list (files : List (List StaleRecord)) (lim : Int) : List String :=
  (sliced_list files lim).enum.map (fun p => formatLine p.1 p.2)

/-- `set_output(name, value)`: the text `print(f'{name}={value}', file=fh)`
appends to the `GITHUB_OUTPUT` file (opened in append mode). -/
def set_output (name value : String) : String :=
  name ++ "=" ++ value ++ "\n"

/-- `set_multiline_output(name, value)`: the delimited block appended to the
`GITHUB_OUTPUT` file; `delim` stands for the per-call `uuid.uuid1()`. -/
def set_multiline_output (name value delim : String) : String :=
  name ++ "<<" ++ delim ++ "\n" ++ value ++ "\n" ++ delim ++ "\n"

/-- `message = "\n".join(formated_list)` — `str.join` at the string level. -/
def joinNL : List String → String
  | [] => ""
  | [s] => s
  | s :: rest => s ++ "\n" ++ joinNL rest

/-- The `message` variable: the formatted lines joined by newlines. -/
def message (files : List (List StaleRecord)) (lim : Int) : String :=
  joinNL (formated_list files lim)

/-- Each element printed on its own line (`print(f'{message}', file=fh)`). -/
def printLines : List String → String
  | [] => ""
  | m :: rest => m ++ "\n" ++ printLines rest

/-- The text appended to the `GITHUB_STEP_SUMMARY` file when `count ≥ 1`:
the heading plus one print per formatted line. -/
def summaryAppend (files : List (List StaleRecord)) (lim : Int) : String :=
  "## There are " ++ toString (count files) ++ " stale PRs" ++ "\n" ++
    printLines (formated_list files lim)

/-- Escaping of one character inside a JSON string literal, as produced by
`json.dumps` (standard JSON escapes; other control characters as `\u00XX`). -/
def escChar (c : Char) : List Char :=
  if c = '"' then ['\\', '"']
  else if c = '\\' then ['\\', '\\']
  else if c = '\n' then ['\\', 'n']
  else if c = '\t' then ['\\', 't']
  else if c = '\r' then ['\\', 'r']
  else if c = '\x08' then ['\\', 'b']
  else if c = '\x0c' then ['\\', 'f']
  else if c.toNat < 32 then
    ['\\', 'u', '0', '0', Nat.digitChar (c.toNat / 16), Nat.digitChar (c.toNat % 16)]
  else [c]

/-- A JSON string literal for `s`: quote, escaped characters, quote. -/
def encStrChars (s : String) : List Char :=
  '"' :: s.data.flatMap escChar ++ ['"']

/-- The comma-space separated JSON string literals of a list, as
`json.dumps` renders the items of a list. -/
def encItems : List String → List Char
  | [] => []
  | [s] => encStrChars s
  | s :: rest => encStrChars s ++ ',' :: ' ' :: encItems rest

/-- `json.dumps(formated_list)`: a single-line JSON array of strings. -/
def jsonDumps (l : List String) : String :=
  ⟨'[' :: encItems l ++ [']']⟩

/-- The `data` output value: `json.dumps(formated_list)`. -/
def dataValue (files : List (List StaleRecord)) (lim : Int) : String :=
  jsonDumps (formated_list files lim)

/-- The text this run appends to the `GITHUB_OUTPUT` file: the `COUNT`
output, then — early exit when the count is zero — either an empty
single-line `MESSAGE`, or the delimited multi-line `MESSAGE` followed by the
`data` output. -/
def outputAppend (files : List (List StaleRecord)) (lim : Int) (delim : String) : String :=
  set_output "COUNT" (toString (count files)) ++
    (if count files < 1 then set_output "MESSAGE" ""
     else set_multiline_output "MESSAGE" (message files lim) delim ++
       set_output "data" (dataValue files lim))

/-- Final content of the `GITHUB_OUTPUT` file: prior content plus this run's
appends (the file is always opened with mode `'a'`). -/
def runOutput (prior : String) (files : List (List StaleRecord)) (lim : Int)
    (delim : String) : String :=
  prior ++ outputAppend files lim delim

/-- Final content of the `GITHUB_STEP_SUMMARY` file: unchanged on the
zero-count early exit, otherwise prior content plus the summary block. -/
def runSummary (prior : String) (files : List (List StaleRecord)) (lim : Int) : String :=
  if count files < 1 then prior else prior ++ summaryAppend files lim

/-- The whole program: parse the limit (dying on an unparseable argument),
then produce the final contents of the two sinks.  `some` is a successful
exit (status 0), `none` the uncaught exception. -/
def runProgram (args : List String) (files : List (List StaleRecord))
    (delim priorOut priorSum : String) : Option (String × String) :=
  match limit args with
  | none => none
  | some lim => some (runOutput priorOut files lim delim, runSummary priorSum files lim)

/-- Modelled from the spec: the inverse reading of one JSON escape letter
(`"data — the formatted lines serialized as a JSON array of strings"` is
produced by the external `json` library; decoding is its inverse). -/
def decEsc (e : Char) : Option Char :=
  if e = '"' then some '"'
  else if e = '\\' then some '\\'
  else if e = '/' then some '/'
  else if e = 'n' then some '\n'
  else if e = 't' then some '\t'
  else if e = 'r' then some '\r'
  else if e = 'b' then some '\x08'
  else if e = 'f' then some '\x0c'
  else none

/-- Value of one hexadecimal digit. -/
def fromHexDigit (c : Char) : Option Nat :=
  if '0' ≤ c ∧ c ≤ '9' then some (c.toNat - '0'.toNat)
  else if 'a' ≤ c ∧ c ≤ 'f' then some (c.toNat - 'a'.toNat + 10)
  else if 'A' ≤ c ∧ c ≤ 'F' then some (c.toNat - 'A'.toNat + 10)
  else none

/-- Modelled from the spec: JSON string-body decoding — consume characters
up to the closing quote, undoing escapes; returns the decoded characters and
the input remaining after the closing quote. -/
def decStrBody : List Char → Option (List Char × List Char)
  | [] => none
  | c :: rest =>
    if c = '"' then some ([], rest)
    else if c = '\\' then
      match rest with
      | [] => none
      | e :: rest2 =>
        if e = 'u' then
          match rest2 with
          | a :: b :: c2 :: d :: rest3 =>
            match fromHexDigit a, fromHexDigit b, fromHexDigit c2, fromHexDigit d with
            | some w, some x, some y, some z =>
              (decStrBody rest3).map
                (fun p => (Char.ofNat (4096 * w + 256 * x + 16 * y + z) :: p.1, p.2))
            | _, _, _, _ => none
          | _ => none
        else
          match decEsc e with
          | some ec => (decStrBody rest2).map (fun p => (ec :: p.1, p.2))
          | none => none
    else (decStrBody rest).map (fun p => (c :: p.1, p.2))

/-- Modelled from the spec: decode one JSON string literal (leading quote,
body, closing quote). -/
def decString (cs : List Char) : Option (List Char × List Char) :=
  match cs with
  | '"' :: rest => decStrBody rest
  | _ => none

/-- Drop JSON inter-token spaces. -/
def skipSpaces (cs : List Char) : List Char :=
  cs.dropWhile (fun c => c = ' ')

/-- Modelled from the spec: decode a comma-separated nonempty tail of a JSON
array of strings, up to and including the closing bracket.  The fuel bounds
the number of items; each step consumes at least one character. -/
def decItems : Nat → List Char → Option (List String × List Char)
  | 0, _ => none
  | fuel + 1, cs =>
    match decString cs with
    | none => none
    | some (s, rest) =>
      match skipSpaces rest with
      | ']' :: r => some ([⟨s⟩], r)
      | ',' :: r =>
        match decItems fuel (skipSpaces r) with
        | some (ss, r2) => some (⟨s⟩ :: ss, r2)
        | none => none
      | _ => none

/-- Modelled from the spec: decode a JSON array of strings, returning the
items and the remaining input. -/
def decArray (cs : List Char) : Option (List String × List Char) :=
  match cs with
  | '[' :: rest =>
    match skipSpaces rest with
    | ']' :: rest2 => some ([], rest2)
    | r => decItems (r.length + 1) r
  | _ => none

/-- Modelled from the spec: `json.loads` restricted to a whole input that is
a JSON array of strings. -/
def jsonDecode (s : String) : Option (List String) :=
  match decArray s.data with
  | some (l, rest) => if rest = [] then some l else none
  | none => none

/-- Split a character sequence at newline characters — the physical lines of
sink content, and Python's `str.split("\n")`. -/
def splitNL : List Char → List (List Char)
  | [] => [[]]
  | c :: rest =>
    if c = '\n' then [] :: splitNL rest
    else
      match splitNL rest with
      | [] => [[c]]
      | l :: ls => (c :: l) :: ls

/-- The physical lines of a sink's content: the content always ends with a
newline (every write is a `print`), so the final empty fragment is dropped. -/
def sinkLines (s : String) : List String :=
  ((splitNL s.data).dropLast).map (fun l => String.mk l)

/-- `MESSAGE` split at newline characters (Python `message.split("\n")`). -/
def messageSplit (files : List (List StaleRecord)) (lim : Int) : List String :=
  (splitNL (message files lim).data).map (fun l => String.mk l)

/-! ### Stability of the ranking

To state the tie-break order, records are tagged with their position in the
merged input (`List.enum`) and the same stable sort and reversal is applied
to the tagged list; projecting the tags away recovers `sorted_data`. -/

/-- The sort key comparison lifted to index-tagged records. -/
abbrev idxLe : (Nat × StaleRecord) → (Nat × StaleRecord) → Prop :=
  fun a b => a.2.daysStale ≤ b.2.daysStale

/-- Strict lexicographic order on (key, merge position): the order in which
a stable ascending sort by `daysStale` lists the tagged records. -/
abbrev lexLt (a b : Nat × StaleRecord) : Prop :=
  a.2.daysStale < b.2.daysStale ∨ (a.2.daysStale = b.2.daysStale ∧ a.1 < b.1)

/-- The ranked sequence with merge positions attached. -/
def rankedIdx (files : List (List StaleRecord)) : List (Nat × StaleRecord) :=
  (List.insertionSort idxLe (result files).enum).reverse

example : jsonDecode (jsonDumps ["a\"b", "c\\d", "e\nf", "\x01"]) =
    some ["a\"b", "c\\d", "e\nf", "\x01"] := by decide

example : jsonDecode "[]" = some [] := by decide

example : sinkLines "## h\n a\n b\n" = ["## h", " a", " b"] := by decide

example : messageSplit [[⟨ "A", "u1", 5⟩], [⟨ "B", "u2", 10⟩]] 999 =
    [" 1. [B](u2) | 10 days with no reviews", " 2. [A](u1) | 5 days with no reviews"] := by
  decide

example : result [[⟨ "A", "u1", 5⟩], [⟨ "B", "u2", 10⟩]] =
    [⟨ "A", "u1", 5⟩, ⟨ "B", "u2", 10⟩] := by decide

example : sorted_data [[⟨ "A", "u1", 5⟩], [⟨ "B", "u2", 10⟩]] =
    [⟨ "B", "u2", 10⟩, ⟨ "A", "u1", 5⟩] := by decide

example : formated_list [[⟨ "A", "u1", 5⟩], [⟨ "B", "u2", 10⟩]] 999 =
    [" 1. [B](u2) | 10 days with no reviews", " 2. [A](u1) | 5 days with no reviews"] := by
  decide

example : message [[⟨ "A", "u1", 5⟩], [⟨ "B", "u2", 10⟩]] 999 =
    " 1. [B](u2) | 10 days with no reviews\n 2. [A](u1) | 5 days with no reviews" := by
  decide

example : limit [] = some 999 := by decide
example : limit ["15"] = some 15 := by decide
example : limit ["-3"] = some (-3) := by decide
example : limit [" 42 "] = some 42 := by decide
example : limit ["abc"] = none := by decide
example : limit ["1_0"] = some 10 := by decide
example : limit ["1_"] = none := by decide
example : jsonDumps [] = "[]" := by decide
example : jsonDumps ["a", "b"] = "[\"a\", \"b\"]" := by decide

theorem pairwise_orderedInsert_lex (p : Nat × StaleRecord) (l : List (Nat × StaleRecord))
    (hl : l.Pairwise lexLt) (hp : ∀ q ∈ l, p.1 < q.1) :
    (List.orderedInsert idxLe p l).Pairwise lexLt := by
  induction l with
  | nil => simp
  | cons b t ih =>
    rw [List.orderedInsert]
    by_cases h : p.2.daysStale ≤ b.2.daysStale
    · rw [if_pos h, List.pairwise_cons]
      rw [List.pairwise_cons] at hl
      refine ⟨?_, List.pairwise_cons.mpr hl⟩
      intro q hq
      rcases List.mem_cons.mp hq with rfl | hq'
      · rcases lt_or_eq_of_le h with h' | h'
        · exact Or.inl h'
        · exact Or.inr ⟨h', hp q (List.mem_cons_self _ _)⟩
      · have hbq : b.2.daysStale ≤ q.2.daysStale := by
          rcases hl.1 q hq' with h2 | h2
          · exact le_of_lt h2
          · exact le_of_eq h2.1
        rcases lt_or_eq_of_le (le_trans h hbq) with h' | h'
        · exact Or.inl h'
        · exact Or.inr ⟨h', hp q (List.mem_cons_of_mem _ hq')⟩
    · rw [if_neg h, List.pairwise_cons]
      rw [List.pairwise_cons] at hl
      push_neg at h
      constructor
      · intro q hq
        rcases (List.mem_orderedInsert _).mp hq with rfl | hq'
        · exact Or.inl h
        · exact hl.1 q hq'
      · exact ih hl.2 (fun q hq => hp q (List.mem_cons_of_mem _ hq))

theorem pairwise_insertionSort_lex (l : List (Nat × StaleRecord))
    (hl : l.Pairwise (fun a b => a.1 < b.1)) :
    (List.insertionSort idxLe l).Pairwise lexLt := by
  induction l with
  | nil => simp
  | cons p t ih =>
    rw [List.pairwise_cons] at hl
    rw [List.insertionSort]
    refine pairwise_orderedInsert_lex p _ (ih hl.2) ?_
    intro q hq
    exact hl.1 q ((List.perm_insertionSort idxLe t).mem_iff.mp hq)

theorem enum_pairwise_idx (l : List StaleRecord) :
    l.enum.Pairwise (fun a b => a.1 < b.1) := by
  have h := List.pairwise_lt_range l.length
  rw [← List.enum_map_fst l] at h
  exact List.pairwise_map.mp h

theorem mapSnd_orderedInsert (p : Nat × StaleRecord) (l : List (Nat × StaleRecord)) :
    (List.orderedInsert idxLe p l).map Prod.snd =
      List.orderedInsert recLe p.2 (l.map Prod.snd) := by
  induction l with
  | nil => rfl
  | cons b t ih =>
    rw [List.map_cons, List.orderedInsert, List.orderedInsert]
    by_cases h : p.2.daysStale ≤ b.2.daysStale
    · rw [if_pos h, if_pos h]
      simp
    · rw [if_neg h, if_neg h, List.map_cons, ih]

theorem mapSnd_insertionSort (l : List (Nat × StaleRecord)) :
    (List.insertionSort idxLe l).map Prod.snd =
      List.insertionSort recLe (l.map Prod.snd) := by
  induction l with
  | nil => rfl
  | cons p t ih =>
    rw [List.insertionSort, List.map_cons, List.insertionSort, mapSnd_orderedInsert, ih]

/-- C1: for every merged input sequence, the ranked sequence is the stable
ascending sort by `daysStale` reversed: it is a permutation of the merged
input, descending in `daysStale`, and — tagging each record with its merge
position — whenever one tagged record precedes another in the ranked output,
either its `daysStale` is strictly larger, or the two are equal-stale and
the earlier-merged record (smaller tag) is the later one in the output. -/
theorem C1_ranking (files : List (List StaleRecord)) :
    (sorted_data files).Perm (result files) ∧
    List.map Prod.snd (rankedIdx files) = sorted_data files ∧
    (sorted_data files).Pairwise (fun a b => b.daysStale ≤ a.daysStale) ∧
    (rankedIdx files).Pairwise (fun p q =>
      q.2.daysStale < p.2.daysStale ∨ (q.2.daysStale = p.2.daysStale ∧ q.1 < p.1)) := by
  have hmap : List.map Prod.snd (rankedIdx files) = sorted_data files := by
    rw [rankedIdx, sorted_data, List.map_reverse, mapSnd_insertionSort, List.enum_map_snd]
  have hpair : (rankedIdx files).Pairwise (fun p q => lexLt q p) := by
    rw [rankedIdx, List.pairwise_reverse]
    exact pairwise_insertionSort_lex _ (enum_pairwise_idx _)
  refine ⟨?_, hmap, ?_, hpair⟩
  · rw [sorted_data]
    exact (List.reverse_perm _).trans (List.perm_insertionSort _ _)
  · rw [← hmap, List.pairwise_map]
    refine hpair.imp ?_
    intro a b hab
    rcases hab with h | h
    · exact le_of_lt h
    · exact le_of_eq h.1

/-! ### Counting, truncation, outputs -/

theorem count_eq_result_length (files : List (List StaleRecord)) :
    count files = (result files).length := by
  rw [count, sorted_data, List.length_reverse, List.length_insertionSort]

/-- C2: the `COUNT` output is the total number of merged records before
truncation; it does not depend on the limit, and it can exceed the number of
formatted lines. -/
theorem C2_count_total (files : List (List StaleRecord)) (lim : Int) (delim : String) :
    count files = (result files).length ∧
    (∃ rest, outputAppend files lim delim =
      set_output "COUNT" (toString ((result files).length)) ++ rest) ∧
    count [[⟨ "A", "u", 1⟩]] > (formated_list [[⟨ "A", "u", 1⟩]] 0).length := by
  refine ⟨count_eq_result_length files, ?_, by decide⟩
  rw [outputAppend, count_eq_result_length]
  exact ⟨_, rfl⟩

/-- C3 (amended): an absent limit argument silently defaults to 999 and a
parseable one is used as given, but an unparseable one raises an uncaught
`ValueError` (abnormal termination), not a silent fallback to the default. -/
theorem C3_limit_parsing :
    limit [] = some 999 ∧
    (∀ a n, int_py a = some n → limit [a] = some n) ∧
    (∀ a, int_py a = none → limit [a] = none) := by
  exact ⟨rfl, fun a n h => h, fun a h => h⟩

theorem C3_limit_parsing_witness :
    limit [] = some 999 ∧ limit ["15"] = some 15 ∧ limit ["abc"] = none :=
  ⟨C3_limit_parsing.1, C3_limit_parsing.2.1 "15" 15 (by decide),
    C3_limit_parsing.2.2 "abc" (by decide)⟩

/-- C3 counterexample: on the unparseable argument `"abc"` the program does
not use the default 999 — `int('abc')` raises and the run dies. -/
theorem C3_counterexample :
    limit ["abc"] = none ∧ limit ["abc"] ≠ some 999 := by decide

/-- C4: with zero merged records the run emits `COUNT=0` and an empty
single-line `MESSAGE`, emits no `data` output, leaves the summary sink
untouched, and exits successfully. -/
theorem C4_zero_records (files : List (List StaleRecord)) (h : count files = 0)
    (args : List String) (lim : Int) (hl : limit args = some lim)
    (delim priorOut priorSum : String) :
    runProgram args files delim priorOut priorSum =
      some (priorOut ++ "COUNT=0\nMESSAGE=\n", priorSum) := by
  have h1 : runOutput priorOut files lim delim = priorOut ++ "COUNT=0\nMESSAGE=\n" := by
    rw [runOutput, outputAppend, h, if_pos (by decide : (0:Nat) < 1)]
    congr 1
  have h2 : runSummary priorSum files lim = priorSum := by
    rw [runSummary, h, if_pos (by decide : (0:Nat) < 1)]
  simp only [runProgram, hl, h1, h2]

theorem C4_zero_records_witness :
    runProgram [] [] "D" "prior-out" "prior-sum" =
      some ("prior-out" ++ "COUNT=0\nMESSAGE=\n", "prior-sum") :=
  C4_zero_records [] (by decide) [] 999 (by decide) "D" "prior-out" "prior-sum"

/-- C6: the formatted line at 0-based position `i` is exactly
`' {i+1}. [{title}]({url}) | {daysStale} days with no reviews'` for the
record at the same position of the sliced list, so the lines are numbered
1..N contiguously in ranked-truncated order. -/
theorem C6_template (files : List (List StaleRecord)) (lim : Int) (i : Nat) :
    (formated_list files lim).length = (sliced_list files lim).length ∧
    (formated_list files lim)[i]? = ((sliced_list files lim)[i]?).map (fun r =>
      " " ++ toString (i + 1) ++ ". [" ++ r.title ++ "](" ++ r.url ++ ") | " ++
        toString r.daysStale ++ " days with no reviews") := by
  constructor
  · rw [formated_list, List.length_map, List.enum_length]
  · rw [formated_list, List.getElem?_map, List.getElem?_enum, Option.map_map]
    cases (sliced_list files lim)[i]? <;> rfl

/-- C7: for a positive limit the kept records are the first `limit` records
of the ranked sequence, and the number of kept (hence formatted) records is
`min(COUNT, limit)`. -/
theorem C7_truncation (files : List (List StaleRecord)) (lim : Int) (h : 0 < lim) :
    sliced_list files lim = (sorted_data files).take lim.toNat ∧
    (formated_list files lim).length = min (count files) lim.toNat := by
  have hsl : sliced_list files lim = (sorted_data files).take lim.toNat := by
    rw [sliced_list, pySliceTo, if_pos (le_of_lt h)]
  refine ⟨hsl, ?_⟩
  rw [formated_list, List.length_map, List.enum_length, hsl, List.length_take, count]
  exact Nat.min_comm _ _

theorem C7_truncation_witness :
    sliced_list [[⟨ "A", "u", 1⟩, ⟨ "B", "v", 2⟩]] 1 =
      (sorted_data [[⟨ "A", "u", 1⟩, ⟨ "B", "v", 2⟩]]).take ((1:Int).toNat) ∧
    (formated_list [[⟨ "A", "u", 1⟩, ⟨ "B", "v", 2⟩]] 1).length =
      min (count [[⟨ "A", "u", 1⟩, ⟨ "B", "v", 2⟩]]) ((1:Int).toNat) :=
  C7_truncation [[⟨ "A", "u", 1⟩, ⟨ "B", "v", 2⟩]] 1 (by decide)

/-- C8: both sinks are opened in append mode: the final content of each is
the prior content followed by this run's additions, so earlier pipeline
content survives unchanged. -/
theorem C8_append_only (priorOut priorSum : String) (files : List (List StaleRecord))
    (lim : Int) (delim : String) :
    (∃ s, runOutput priorOut files lim delim = priorOut ++ s) ∧
    (∃ t, runSummary priorSum files lim = priorSum ++ t) := by
  refine ⟨⟨outputAppend files lim delim, rfl⟩, ?_⟩
  rw [runSummary]
  by_cases h : count files < 1
  · rw [if_pos h]
    exact ⟨"", (String.append_empty _).symm⟩
  · rw [if_neg h]
    exact ⟨_, rfl⟩

/-- C9: non-positive limits follow Python slice semantics, not
`min(COUNT, limit)`: limit 0 keeps nothing yet still writes the heading, a
delimited empty `MESSAGE` and `data = "[]"`; a negative limit keeps
`max(COUNT + limit, 0)` records (dropping from the end). -/
theorem C9_nonpositive_limit (files : List (List StaleRecord)) (h : 0 < count files)
    (delim priorSum : String) :
    sliced_list files 0 = [] ∧
    formated_list files 0 = [] ∧
    runSummary priorSum files 0 =
      priorSum ++ ("## There are " ++ toString (count files) ++ " stale PRs" ++ "\n") ∧
    outputAppend files 0 delim =
      set_output "COUNT" (toString (count files)) ++
        (set_multiline_output "MESSAGE" "" delim ++ set_output "data" "[]") ∧
    (∀ lim : Int, lim < 0 →
      (sliced_list files lim).length = count files - (-lim).toNat) ∧
    (∀ lim : Int, lim < 0 →
      ((sliced_list files lim).length : Int) ≠ min ((count files : Nat) : Int) lim) := by
  have h0 : sliced_list files 0 = [] := by
    rw [sliced_list, pySliceTo, if_pos (le_refl (0:Int))]
    rfl
  have hf : formated_list files 0 = [] := by
    rw [formated_list, h0]
    rfl
  have hnot : ¬ count files < 1 := by omega
  refine ⟨h0, hf, ?_, ?_, ?_, ?_⟩
  · rw [runSummary, if_neg hnot, summaryAppend, hf]
    rw [show printLines [] = "" from rfl, String.append_empty]
  · rw [outputAppend, if_neg hnot, message, dataValue, hf]
    rw [((by decide) : jsonDumps ([] : List String) = "[]")]
    rfl
  · intro lim hlim
    rw [sliced_list, pySliceTo, if_neg (not_le.mpr hlim), List.length_take, count]
    exact Nat.min_eq_left (Nat.sub_le _ _)
  · intro lim hlim heq
    have h1 : (0:Int) ≤ ((sliced_list files lim).length : Int) := Int.natCast_nonneg _
    have h2 : min ((count files : Nat) : Int) lim ≤ lim := min_le_right _ _
    rw [heq] at h1
    linarith

theorem C9_nonpositive_limit_witness :
    sliced_list [[⟨ "A", "u", 1⟩, ⟨ "B", "v", 2⟩]] 0 = [] ∧
    (sliced_list [[⟨ "A", "u", 1⟩, ⟨ "B", "v", 2⟩]] (-1)).length =
      count [[⟨ "A", "u", 1⟩, ⟨ "B", "v", 2⟩]] - ((-(-1:Int)).toNat) :=
  ⟨(C9_nonpositive_limit [[⟨ "A", "u", 1⟩, ⟨ "B", "v", 2⟩]] (by decide) "D" "S").1,
    (C9_nonpositive_limit [[⟨ "A", "u", 1⟩, ⟨ "B", "v", 2⟩]] (by decide) "D" "S").2.2.2.2.1
      (-1) (by decide)⟩

/-! ### Newlines in rendered text

The formatted line contains a newline exactly when the interpolated `title`
or `url` does: the fixed template pieces and the rendered numbers are
newline-free. -/

theorem digitChar_ne_nl (n : Nat) : Nat.digitChar n ≠ '\n' := by
  by_cases h : n < 16
  · have hball : ∀ m, m < 16 → Nat.digitChar m ≠ '\n' := by decide
    exact hball n h
  · unfold Nat.digitChar
    simp [show ∀ m, m < 16 → (n = m) = False from fun m hm => eq_false (by omega)]

theorem toDigitsCore_ne_nl (fuel : Nat) : ∀ (n : Nat) (ds : List Char),
    (∀ c ∈ ds, c ≠ '\n') → ∀ c ∈ Nat.toDigitsCore 10 fuel n ds, c ≠ '\n' := by
  induction fuel with
  | zero =>
    intro n ds hds c hc
    rw [Nat.toDigitsCore] at hc
    exact hds c hc
  | succ fuel ih =>
    intro n ds hds c hc
    rw [Nat.toDigitsCore] at hc
    have hcons : ∀ c ∈ Nat.digitChar (n % 10) :: ds, c ≠ '\n' := by
      intro x hx
      rcases List.mem_cons.mp hx with rfl | hx'
      · exact digitChar_ne_nl _
      · exact hds x hx'
    by_cases h : n / 10 = 0
    · rw [if_pos h] at hc
      exact hcons c hc
    · rw [if_neg h] at hc
      exact ih _ _ hcons c hc

theorem natRepr_ne_nl (n : Nat) : ∀ c ∈ (Nat.repr n).data, c ≠ '\n' := by
  intro c hc
  exact toDigitsCore_ne_nl (n + 1) n [] (by intro x hx; cases hx) c hc

theorem intRepr_ne_nl (i : Int) : ∀ c ∈ (Int.repr i).data, c ≠ '\n' := by
  intro c hc
  cases i with
  | ofNat m => exact natRepr_ne_nl m c hc
  | negSucc m =>
    rw [Int.repr, String.data_append] at hc
    rcases List.mem_append.mp hc with h | h
    · rcases List.mem_singleton.mp h with rfl
      decide
    · exact natRepr_ne_nl _ c h

theorem noNL_append {a b : String} (ha : ∀ c ∈ a.data, c ≠ '\n')
    (hb : ∀ c ∈ b.data, c ≠ '\n') : ∀ c ∈ (a ++ b).data, c ≠ '\n' := by
  intro c hc
  rw [String.data_append] at hc
  rcases List.mem_append.mp hc with h | h
  · exact ha c h
  · exact hb c h

theorem formatLine_ne_nl (i : Nat) (r : StaleRecord)
    (ht : ∀ c ∈ r.title.data, c ≠ '\n') (hu : ∀ c ∈ r.url.data, c ≠ '\n') :
    ∀ c ∈ (formatLine i r).data, c ≠ '\n' := by
  rw [formatLine]
  refine noNL_append (noNL_append (noNL_append (noNL_append (noNL_append (noNL_append
    (noNL_append (noNL_append ?_ ?_) ?_) ht) ?_) hu) ?_) ?_) ?_
  · decide
  · exact natRepr_ne_nl (i + 1)
  · decide
  · decide
  · decide
  · exact intRepr_ne_nl r.daysStale
  · decide

/-! ### Physical lines -/

theorem splitNL_no_nl (cs : List Char) (h : ∀ c ∈ cs, c ≠ '\n') :
    splitNL cs = [cs] := by
  induction cs with
  | nil => rfl
  | cons c rest ih =>
    rw [splitNL, if_neg (h c (List.mem_cons_self _ _)),
      ih (fun x hx => h x (List.mem_cons_of_mem _ hx))]

theorem splitNL_append_nl (a b : List Char) (h : ∀ c ∈ a, c ≠ '\n') :
    splitNL (a ++ '\n' :: b) = a :: splitNL b := by
  induction a with
  | nil => rw [List.nil_append, splitNL, if_pos rfl]
  | cons c rest ih =>
    rw [List.cons_append, splitNL, if_neg (h c (List.mem_cons_self _ _)),
      ih (fun x hx => h x (List.mem_cons_of_mem _ hx))]

theorem splitNL_printLines (msgs : List String)
    (h : ∀ m ∈ msgs, ∀ c ∈ m.data, c ≠ '\n') :
    splitNL (printLines msgs).data = (msgs.map (fun m => m.data)) ++ [[]] := by
  induction msgs with
  | nil => rfl
  | cons m rest ih =>
    rw [printLines, String.data_append, String.data_append,
      show ("\n" : String).data = ['\n'] from rfl, List.append_assoc,
      List.singleton_append,
      splitNL_append_nl _ _ (h m (List.mem_cons_self _ _)),
      ih (fun x hx => h x (List.mem_cons_of_mem _ hx)), List.map_cons,
      List.cons_append]

theorem mk_data_eq (s : String) : String.mk s.data = s := rfl

theorem splitNL_joinNL (msgs : List String) (hne : msgs ≠ [])
    (h : ∀ m ∈ msgs, ∀ c ∈ m.data, c ≠ '\n') :
    splitNL (joinNL msgs).data = msgs.map (fun m => m.data) := by
  induction msgs with
  | nil => cases hne rfl
  | cons m rest ih =>
    cases rest with
    | nil =>
      rw [joinNL, splitNL_no_nl _ (h m (List.mem_cons_self _ _))]
      rfl
    | cons m2 rest2 =>
      rw [joinNL, String.data_append, String.data_append,
        show ("\n" : String).data = ['\n'] from rfl, List.append_assoc,
        List.singleton_append,
        splitNL_append_nl _ _ (h m (List.mem_cons_self _ _)),
        ih (List.cons_ne_nil _ _) (fun x hx => h x (List.mem_cons_of_mem _ hx)),
        List.map_cons]
      exacts [rfl, List.cons_ne_nil _ _]

theorem formated_no_nl (files : List (List StaleRecord)) (lim : Int)
    (h2 : ∀ r ∈ sliced_list files lim,
      (∀ c ∈ r.title.data, c ≠ '\n') ∧ (∀ c ∈ r.url.data, c ≠ '\n')) :
    ∀ m ∈ formated_list files lim, ∀ c ∈ m.data, c ≠ '\n' := by
  intro m hm
  rw [formated_list] at hm
  obtain ⟨p, hp, rfl⟩ := List.mem_map.mp hm
  have hr : p.2 ∈ sliced_list files lim := by
    have hsnd := List.mem_map_of_mem Prod.snd hp
    rwa [List.enum_map_snd] at hsnd
  exact formatLine_ne_nl p.1 p.2 (h2 p.2 hr).1 (h2 p.2 hr).2

theorem heading_no_nl (files : List (List StaleRecord)) :
    ∀ c ∈ ("## There are " ++ toString (count files) ++ " stale PRs").data, c ≠ '\n' := by
  refine noNL_append (noNL_append ?_ ?_) ?_
  · decide
  · exact natRepr_ne_nl (count files)
  · decide

/-- With newline-free formatted lines, the summary block's physical lines
are exactly the heading followed by the formatted lines. -/
theorem summary_sinkLines (files : List (List StaleRecord)) (lim : Int)
    (h : ∀ m ∈ formated_list files lim, ∀ c ∈ m.data, c ≠ '\n') :
    sinkLines (summaryAppend files lim) =
      ("## There are " ++ toString (count files) ++ " stale PRs") ::
        formated_list files lim := by
  rw [sinkLines, summaryAppend, String.data_append, String.data_append,
    show ("\n" : String).data = ['\n'] from rfl, List.append_assoc,
    List.singleton_append, splitNL_append_nl _ _ (heading_no_nl files),
    splitNL_printLines _ h]
  have hdrop : (("## There are " ++ toString (count files) ++ " stale PRs").data ::
      (List.map (fun m => m.data) (formated_list files lim) ++ [[]])).dropLast =
      ("## There are " ++ toString (count files) ++ " stale PRs").data ::
        List.map (fun m => m.data) (formated_list files lim) := by
    rw [← List.cons_append, List.dropLast_concat]
  rw [hdrop, List.map_cons, mk_data_eq, List.map_map]
  congr 1
  have : (String.mk ∘ fun m => m.data) = id := funext fun s => rfl
  rw [this, List.map_id]

/-- With newline-free formatted lines and at least one of them, splitting
`MESSAGE` at newlines recovers exactly the formatted lines. -/
theorem messageSplit_eq (files : List (List StaleRecord)) (lim : Int)
    (hne : formated_list files lim ≠ [])
    (h : ∀ m ∈ formated_list files lim, ∀ c ∈ m.data, c ≠ '\n') :
    messageSplit files lim = formated_list files lim := by
  rw [messageSplit, message, splitNL_joinNL _ hne h, List.map_map]
  have : (String.mk ∘ fun m => m.data) = id := funext fun s => rfl
  rw [this, List.map_id]

/-! ### The JSON round trip -/

theorem fromHexDigit_digitChar : ∀ n, n < 16 → fromHexDigit (Nat.digitChar n) = some n := by
  decide

theorem decStrBody_escChar (c : Char) (tail : List Char) :
    decStrBody (escChar c ++ tail) =
      (decStrBody tail).map (fun p => (c :: p.1, p.2)) := by
  rw [escChar]
  by_cases h1 : c = '"'
  · rw [if_pos h1]
    subst h1
    simp only [List.cons_append, List.nil_append]
    rw [decStrBody.eq_def]
    simp [decEsc]
  rw [if_neg h1]
  by_cases h2 : c = '\\'
  · rw [if_pos h2]
    subst h2
    simp only [List.cons_append, List.nil_append]
    rw [decStrBody.eq_def]
    simp [decEsc]
  rw [if_neg h2]
  by_cases h3 : c = '\n'
  · rw [if_pos h3]
    subst h3
    simp only [List.cons_append, List.nil_append]
    rw [decStrBody.eq_def]
    simp [decEsc]
  rw [if_neg h3]
  by_cases h4 : c = '\t'
  · rw [if_pos h4]
    subst h4
    simp only [List.cons_append, List.nil_append]
    rw [decStrBody.eq_def]
    simp [decEsc]
  rw [if_neg h4]
  by_cases h5 : c = '\r'
  · rw [if_pos h5]
    subst h5
    simp only [List.cons_append, List.nil_append]
    rw [decStrBody.eq_def]
    simp [decEsc]
  rw [if_neg h5]
  by_cases h6 : c = '\x08'
  · rw [if_pos h6]
    subst h6
    simp only [List.cons_append, List.nil_append]
    rw [decStrBody.eq_def]
    simp [decEsc]
  rw [if_neg h6]
  by_cases h7 : c = '\x0c'
  · rw [if_pos h7]
    subst h7
    simp only [List.cons_append, List.nil_append]
    rw [decStrBody.eq_def]
    simp [decEsc]
  rw [if_neg h7]
  by_cases h8 : c.toNat < 32
  · rw [if_pos h8]
    have ha : fromHexDigit '0' = some 0 := by decide
    have hb : fromHexDigit (Nat.digitChar (c.toNat / 16)) = some (c.toNat / 16) :=
      fromHexDigit_digitChar _ (by omega)
    have hcd : fromHexDigit (Nat.digitChar (c.toNat % 16)) = some (c.toNat % 16) :=
      fromHexDigit_digitChar _ (by omega)
    simp only [List.cons_append, List.nil_append]
    rw [decStrBody.eq_def]
    simp [ha, hb, hcd, Nat.div_add_mod, Char.ofNat_toNat]
  · rw [if_neg h8, List.singleton_append, decStrBody.eq_def]
    simp [h1, h2]

theorem decStrBody_flatMap (cs : List Char) (rest : List Char) :
    decStrBody (cs.flatMap escChar ++ '"' :: rest) = some (cs, rest) := by
  induction cs with
  | nil =>
    rw [List.flatMap_nil, List.nil_append, decStrBody.eq_def]
    simp
  | cons c cs ih =>
    rw [List.flatMap_cons, List.append_assoc, decStrBody_escChar, ih]
    rfl

theorem decString_encStr (s : String) (rest : List Char) :
    decString (encStrChars s ++ rest) = some (s.data, rest) := by
  have h : encStrChars s ++ rest = '"' :: (s.data.flatMap escChar ++ '"' :: rest) := by
    rw [encStrChars]
    simp
  rw [h, decString.eq_def]
  simp only []
  exact decStrBody_flatMap s.data rest

theorem skipSpaces_cons (c : Char) (cs : List Char) (h : ¬ c = ' ') :
    skipSpaces (c :: cs) = c :: cs := by
  rw [skipSpaces, List.dropWhile_cons, if_neg (by simpa using h)]

theorem skipSpaces_space (cs : List Char) : skipSpaces (' ' :: cs) = skipSpaces cs := by
  rw [skipSpaces, skipSpaces, List.dropWhile_cons, if_pos (by simp)]

theorem encItems_cons (s : String) (ss : List String) :
    ∃ t, encItems (s :: ss) = '"' :: t := by
  cases ss with
  | nil => exact ⟨_, rfl⟩
  | cons s2 ss2 => exact ⟨_, rfl⟩

theorem decItems_encItems : ∀ (fuel : Nat) (ss : List String) (rest : List Char),
    ss ≠ [] → ss.length ≤ fuel →
    decItems fuel (encItems ss ++ ']' :: rest) = some (ss, rest) := by
  intro fuel
  induction fuel with
  | zero =>
    intro ss rest hne hlen
    cases ss with
    | nil => exact absurd rfl hne
    | cons s ss2 => simp at hlen
  | succ fuel ih =>
    intro ss rest hne hlen
    cases ss with
    | nil => exact absurd rfl hne
    | cons s ss2 =>
      cases ss2 with
      | nil =>
        rw [show encItems [s] = encStrChars s from rfl]
        simp only [decItems]
        rw [decString_encStr]
        simp [skipSpaces_cons, mk_data_eq]
      | cons s2 ss3 =>
        obtain ⟨t, ht⟩ := encItems_cons s2 ss3
        have hih := ih (s2 :: ss3) rest (List.cons_ne_nil _ _)
          (by simp only [List.length_cons] at hlen ⊢; omega)
        have hskip : skipSpaces (' ' :: (encItems (s2 :: ss3) ++ ']' :: rest)) =
            encItems (s2 :: ss3) ++ ']' :: rest := by
          rw [skipSpaces_space, ht, List.cons_append, skipSpaces_cons _ _ (by decide)]
        have hsk1 : skipSpaces (',' :: ' ' :: (encItems (s2 :: ss3) ++ ']' :: rest)) =
            ',' :: ' ' :: (encItems (s2 :: ss3) ++ ']' :: rest) :=
          skipSpaces_cons _ _ (by decide)
        rw [show encItems (s :: s2 :: ss3) =
          encStrChars s ++ ',' :: ' ' :: encItems (s2 :: ss3) from rfl]
        rw [List.append_assoc, List.cons_append, List.cons_append]
        simp only [decItems]
        rw [decString_encStr]
        simp only [hsk1, hskip, hih, mk_data_eq]

theorem le_length_encItems (ss : List String) : ss.length ≤ (encItems ss).length := by
  induction ss with
  | nil => simp [encItems]
  | cons s ss2 ih =>
    cases ss2 with
    | nil =>
      rw [show encItems [s] = encStrChars s from rfl, encStrChars]
      simp only [List.length_append, List.length_cons, List.length_nil]
      omega
    | cons s2 ss3 =>
      rw [show encItems (s :: s2 :: ss3) =
        encStrChars s ++ ',' :: ' ' :: encItems (s2 :: ss3) from rfl]
      simp only [List.length_append, List.length_cons] at ih ⊢
      omega

/-- Decoding inverts encoding: `json.loads(json.dumps(l)) == l` for a list
of strings. -/
theorem jsonDecode_jsonDumps (l : List String) : jsonDecode (jsonDumps l) = some l := by
  cases l with
  | nil => decide
  | cons s ss =>
    obtain ⟨t, ht⟩ := encItems_cons s ss
    have hlen : (s :: ss).length ≤ ('"' :: (t ++ [']'])).length + 1 := by
      have h1 := le_length_encItems (s :: ss)
      rw [ht] at h1
      simp only [List.length_cons, List.length_append] at h1 ⊢
      omega
    have hdec := decItems_encItems (('"' :: (t ++ [']'])).length + 1) (s :: ss) []
      (List.cons_ne_nil _ _) hlen
    rw [ht, List.cons_append] at hdec
    rw [jsonDecode, jsonDumps]
    rw [show (⟨'[' :: encItems (s :: ss) ++ [']']⟩ : String).data =
      '[' :: (encItems (s :: ss) ++ [']']) from rfl]
    rw [ht, List.cons_append]
    simp only [decArray]
    rw [skipSpaces_cons _ _ (by decide)]
    simp only [List.length_cons, List.length_append, List.length_nil] at hdec
    simp [hdec]

/-- C5 (amended): for every run with at least one kept (formatted) record in
which no kept record's title or url contains a newline, JSON-decoding the
`data` output yields exactly the formatted lines, which are also the summary
sink's physical lines after the heading and the `MESSAGE` payload split at
newline characters. -/
theorem C5_roundtrip (files : List (List StaleRecord)) (lim : Int)
    (h1 : formated_list files lim ≠ [])
    (h2 : ∀ r ∈ sliced_list files lim,
      (∀ c ∈ r.title.data, c ≠ '\n') ∧ (∀ c ∈ r.url.data, c ≠ '\n')) :
    jsonDecode (dataValue files lim) = some (formated_list files lim) ∧
    sinkLines (summaryAppend files lim) =
      ("## There are " ++ toString (count files) ++ " stale PRs") ::
        formated_list files lim ∧
    messageSplit files lim = formated_list files lim :=
  ⟨jsonDecode_jsonDumps (formated_list files lim),
    summary_sinkLines files lim (formated_no_nl files lim h2),
    messageSplit_eq files lim h1 (formated_no_nl files lim h2)⟩

theorem C5_roundtrip_witness :
    jsonDecode (dataValue [[⟨ "A", "u", 5⟩]] 999) =
      some (formated_list [[⟨ "A", "u", 5⟩]] 999) ∧
    sinkLines (summaryAppend [[⟨ "A", "u", 5⟩]] 999) =
      ("## There are " ++ toString (count [[⟨ "A", "u", 5⟩]]) ++ " stale PRs") ::
        formated_list [[⟨ "A", "u", 5⟩]] 999 ∧
    messageSplit [[⟨ "A", "u", 5⟩]] 999 = formated_list [[⟨ "A", "u", 5⟩]] 999 :=
  C5_roundtrip [[⟨ "A", "u", 5⟩]] 999 (by decide) (by decide)

/-- C5 counterexample: with a record whose title contains a newline, the
JSON-decoded `data` output (which still equals the formatted-line sequence)
differs from the summary sink's physical lines after the heading and from
`MESSAGE` split at newline characters, so the claimed equality fails for
that run. -/
theorem C5_counterexample :
    jsonDecode (dataValue [[⟨ "A\nB", "u", 5⟩]] 999) =
      some (formated_list [[⟨ "A\nB", "u", 5⟩]] 999) ∧
    messageSplit [[⟨ "A\nB", "u", 5⟩]] 999 ≠ formated_list [[⟨ "A\nB", "u", 5⟩]] 999 ∧
    sinkLines (summaryAppend [[⟨ "A\nB", "u", 5⟩]] 999) ≠
      ("## There are " ++ toString (count [[⟨ "A\nB", "u", 5⟩]]) ++ " stale PRs") ::
        formated_list [[⟨ "A\nB", "u", 5⟩]] 999 := by
  decide

/-- C10: the template interpolates title and url with no escaping: when no
kept title or url contains a newline the summary gains exactly one physical
line per kept record (plus the heading), but a newline inside a title makes
the summary's line count exceed the kept-record count and makes `MESSAGE`
split at newlines differ from the formatted-line sequence. -/
theorem C10_no_escaping :
    (∀ (files : List (List StaleRecord)) (lim : Int),
      (∀ r ∈ sliced_list files lim,
        (∀ c ∈ r.title.data, c ≠ '\n') ∧ (∀ c ∈ r.url.data, c ≠ '\n')) →
      (sinkLines (summaryAppend files lim)).length =
        1 + (sliced_list files lim).length) ∧
    (sinkLines (summaryAppend [[⟨ "A\nB", "u", 3⟩]] 999)).length >
      1 + (sliced_list [[⟨ "A\nB", "u", 3⟩]] 999).length ∧
    messageSplit [[⟨ "A\nB", "u", 3⟩]] 999 ≠ formated_list [[⟨ "A\nB", "u", 3⟩]] 999 := by
  refine ⟨?_, by decide, by decide⟩
  intro files lim h
  rw [summary_sinkLines files lim (formated_no_nl files lim h)]
  rw [List.length_cons, formated_list, List.length_map, List.enum_length]
  omega

theorem C10_no_escaping_witness :
    (sinkLines (summaryAppend [[⟨ "A", "u", 3⟩]] 999)).length =
      1 + (sliced_list [[⟨ "A", "u", 3⟩]] 999).length ∧
    (sinkLines (summaryAppend [[⟨ "A\nB", "u", 3⟩]] 999)).length >
      1 + (sliced_list [[⟨ "A\nB", "u", 3⟩]] 999).length :=
  ⟨C10_no_escaping.1 [[⟨ "A", "u", 3⟩]] 999 (by decide), C10_no_escaping.2.1⟩
